import Mathlib

/-!
Shallow embedding of the `NotaryService` Solidity contract
(`src/contracts/NotaryService.sol`) and proofs of its specified
properties.

Document hashes (`bytes32`) and addresses are modelled as `Nat`;
Solidity mappings become total functions with the zero-initialised
default value; `mapping(address => bool)` membership maps become
`Finset` of addresses; a reverting call returns `Except.error` and, at
the transition-system level, leaves the state unchanged.
-/

namespace Notary

abbrev Hash := Nat
abbrev Addr := Nat

/-- The `DocumentStatus` enum of the contract, in declaration order
(so the Solidity default value 0 is PENDING). -/
inductive DocumentStatus where
  | PENDING
  | SIGNED
  | APPROVED
  | REJECTED
  | ARCHIVED
deriving DecidableEq

/-- The `NotarizedDocument` struct.  The `hasSigned` / `hasApproved`
nested mappings are modelled as finite sets of addresses. -/
structure NotarizedDocument where
  documentHash : Hash
  notary : Addr
  timestamp : Nat
  metadata : String
  «exists» : Bool
  requiredSigners : List Addr
  approvers : List Addr
  hasSigned : Finset Addr
  hasApproved : Finset Addr
  signerCount : Nat
  approverCount : Nat
  status : DocumentStatus
deriving DecidableEq

/-- The `DocumentVersion` struct. -/
structure DocumentVersion where
  documentHash : Hash
  version : Nat
  previousVersionHash : Hash
  creator : Addr
  timestamp : Nat
  changeDescription : String
  isLatest : Bool
deriving DecidableEq

/-- Error kinds of the spec, each carrying the revert message used by
the corresponding `require` in the source. -/
inductive NotaryError where
  | Unauthorized (msg : String)
  | NotFound (msg : String)
  | Conflict (msg : String)
  | InvalidState (msg : String)
deriving DecidableEq

/-- The zero-initialised mapping slot for `documents[h]` before any
write: all fields at their Solidity default values. -/
def emptyDocument : NotarizedDocument :=
  { documentHash := 0
    notary := 0
    timestamp := 0
    metadata := ""
    «exists» := false
    requiredSigners := []
    approvers := []
    hasSigned := ∅
    hasApproved := ∅
    signerCount := 0
    approverCount := 0
    status := .PENDING }

/-- The contract storage: the four mappings plus `owner` and
`totalDocuments`. -/
structure ContractState where
  documents : Hash → NotarizedDocument
  documentVersions : Hash → List DocumentVersion
  latestVersionHash : Hash → Hash
  authorizedNotaries : Addr → Bool
  owner : Addr
  totalDocuments : Nat

/-- Pointwise update of a mapping (Solidity `m[k] = v`). -/
def updFn {α : Type} (f : Nat → α) (k : Nat) (v : α) : Nat → α :=
  fun x => if x = k then v else f x

/-- The constructor: deployer becomes owner and an authorized notary. -/
def initialState (deployer : Addr) : ContractState :=
  { documents := fun _ => emptyDocument
    documentVersions := fun _ => []
    latestVersionHash := fun _ => 0
    authorizedNotaries := updFn (fun _ => false) deployer true
    owner := deployer
    totalDocuments := 0 }

/-- The `_isRequiredSigner` helper: linear scan of
`documents[h].requiredSigners` for `signer`. -/
def isRequiredSigner (s : ContractState) (h : Hash) (signer : Addr) : Bool :=
  (s.documents h).requiredSigners.contains signer

/-- `notarizeDocument`: modifier `onlyAuthorizedNotary`, then the
uniqueness `require`, then first write of the document slot, initial
version push, latest pointer and counter update. -/
def notarizeDocument (s : ContractState) (sender : Addr) (ts : Nat)
    (hash : Hash) (metadata : String) (requiredSigners : List Addr) :
    Except NotaryError ContractState :=
  if s.authorizedNotaries sender || sender == s.owner then
    if (s.documents hash).exists then
      .error (.Conflict "Document already notarized")
    else
      let doc := s.documents hash
      let doc := { doc with
        documentHash := hash
        notary := sender
        timestamp := ts
        metadata := metadata
        «exists» := true
        requiredSigners := requiredSigners
        status := .PENDING }
      let initialVersion : DocumentVersion :=
        { documentHash := hash
          version := 1
          previousVersionHash := 0
          creator := sender
          timestamp := ts
          changeDescription := "Initial version"
          isLatest := true }
      .ok { s with
        documents := updFn s.documents hash doc
        documentVersions :=
          updFn s.documentVersions hash (s.documentVersions hash ++ [initialVersion])
        latestVersionHash := updFn s.latestVersionHash hash hash
        totalDocuments := s.totalDocuments + 1 }
  else .error (.Unauthorized "Not authorized notary")

/-- The clearing loop of `createDocumentVersion`: scan the version
array and clear the first `isLatest` flag found. -/
def clearFirstLatest : List DocumentVersion → List DocumentVersion
  | [] => []
  | v :: vs =>
      if v.isLatest then { v with isLatest := false } :: vs
      else v :: clearFirstLatest vs

/-- `createDocumentVersion`: modifier `documentExists(_originalHash)`,
uniqueness of the new hash, non-empty version array, clear loop,
append, latest pointer update, and copy of the document record. -/
def createDocumentVersion (s : ContractState) (sender : Addr) (ts : Nat)
    (originalHash newVersionHash : Hash) (changeDescription : String) :
    Except NotaryError ContractState :=
  if (s.documents originalHash).exists then
    if (s.documents newVersionHash).exists then
      .error (.Conflict "New version hash already exists")
    else if (s.documentVersions originalHash).length = 0 then
      .error (.NotFound "No versions found")
    else
      let cleared := clearFirstLatest (s.documentVersions originalHash)
      let newVersionNumber := (s.documentVersions originalHash).length + 1
      let newVersion : DocumentVersion :=
        { documentHash := newVersionHash
          version := newVersionNumber
          previousVersionHash := s.latestVersionHash originalHash
          creator := sender
          timestamp := ts
          changeDescription := changeDescription
          isLatest := true }
      let originalDoc := s.documents originalHash
      let newDoc := s.documents newVersionHash
      let newDoc := { newDoc with
        documentHash := newVersionHash
        notary := originalDoc.notary
        timestamp := ts
        metadata := originalDoc.metadata
        «exists» := true
        requiredSigners := originalDoc.requiredSigners
        status := .PENDING }
      .ok { s with
        documents := updFn s.documents newVersionHash newDoc
        documentVersions :=
          updFn s.documentVersions originalHash (cleared ++ [newVersion])
        latestVersionHash := updFn s.latestVersionHash originalHash newVersionHash }
  else .error (.NotFound "Document does not exist")

/-- `signDocument`: modifiers `documentExists` and
`onlyRequiredSigner`, then the double-sign and PENDING checks, then
the signature record and the conditional PENDING to SIGNED move. -/
def signDocument (s : ContractState) (sender : Addr) (ts : Nat) (hash : Hash) :
    Except NotaryError ContractState :=
  if (s.documents hash).exists then
    if isRequiredSigner s hash sender then
      let doc := s.documents hash
      if sender ∈ doc.hasSigned then .error (.Conflict "Already signed")
      else if doc.status = .PENDING then
        let doc := { doc with
          hasSigned := insert sender doc.hasSigned
          signerCount := doc.signerCount + 1 }
        let doc :=
          if doc.signerCount = doc.requiredSigners.length then
            { doc with status := .SIGNED }
          else doc
        .ok { s with documents := updFn s.documents hash doc }
      else .error (.InvalidState "Document not in pending status")
    else .error (.Unauthorized "Not a required signer")
  else .error (.NotFound "Document does not exist")

/-- `approveDocument`: modifier `documentExists`, double-approve check,
status check, approval record, and the conditional SIGNED to APPROVED
move.  There is no required-signer check. -/
def approveDocument (s : ContractState) (sender : Addr) (ts : Nat) (hash : Hash) :
    Except NotaryError ContractState :=
  if (s.documents hash).exists then
    let doc := s.documents hash
    if sender ∈ doc.hasApproved then .error (.Conflict "Already approved")
    else if doc.status = .SIGNED ∨ doc.status = .PENDING then
      let doc := { doc with
        hasApproved := insert sender doc.hasApproved
        approvers := doc.approvers ++ [sender]
        approverCount := doc.approverCount + 1 }
      let doc :=
        if doc.status = .SIGNED then { doc with status := .APPROVED } else doc
      .ok { s with documents := updFn s.documents hash doc }
    else .error (.InvalidState "Invalid document status")
  else .error (.NotFound "Document does not exist")

/-- `rejectDocument`: modifiers `documentExists` and
`onlyRequiredSigner`, then the PENDING check, then the move to
REJECTED. -/
def rejectDocument (s : ContractState) (sender : Addr) (ts : Nat) (hash : Hash)
    (reason : String) : Except NotaryError ContractState :=
  if (s.documents hash).exists then
    if isRequiredSigner s hash sender then
      let doc := s.documents hash
      if doc.status = .PENDING then
        .ok { s with documents := updFn s.documents hash { doc with status := .REJECTED } }
      else .error (.InvalidState "Can only reject pending documents")
    else .error (.Unauthorized "Not a required signer")
  else .error (.NotFound "Document does not exist")

/-- `addNotary`: owner-only registry mutation. -/
def addNotary (s : ContractState) (sender target : Addr) :
    Except NotaryError ContractState :=
  if sender == s.owner then
    .ok { s with authorizedNotaries := updFn s.authorizedNotaries target true }
  else .error (.Unauthorized "Only owner can perform this action")

/-- `removeNotary`: owner-only registry mutation. -/
def removeNotary (s : ContractState) (sender target : Addr) :
    Except NotaryError ContractState :=
  if sender == s.owner then
    .ok { s with authorizedNotaries := updFn s.authorizedNotaries target false }
  else .error (.Unauthorized "Only owner can perform this action")

/-- `getDocumentVersions` view. -/
def getDocumentVersions (s : ContractState) (originalHash : Hash) :
    List DocumentVersion :=
  s.documentVersions originalHash

/-- `getLatestVersion` view. -/
def getLatestVersion (s : ContractState) (originalHash : Hash) : Hash :=
  s.latestVersionHash originalHash

/-- One external transaction against the contract, with the caller
(`msg.sender`) and the block timestamp as explicit inputs. -/
inductive Op where
  | notarize (sender : Addr) (ts : Nat) (hash : Hash) (metadata : String)
      (requiredSigners : List Addr)
  | createVersion (sender : Addr) (ts : Nat) (originalHash newVersionHash : Hash)
      (changeDescription : String)
  | sign (sender : Addr) (ts : Nat) (hash : Hash)
  | approve (sender : Addr) (ts : Nat) (hash : Hash)
  | reject (sender : Addr) (ts : Nat) (hash : Hash) (reason : String)
  | addNotaryOp (sender target : Addr)
  | removeNotaryOp (sender target : Addr)

/-- Dispatch one transaction. -/
def applyOp (s : ContractState) : Op → Except NotaryError ContractState
  | .notarize sender ts h m rs => notarizeDocument s sender ts h m rs
  | .createVersion sender ts o n d => createDocumentVersion s sender ts o n d
  | .sign sender ts h => signDocument s sender ts h
  | .approve sender ts h => approveDocument s sender ts h
  | .reject sender ts h r => rejectDocument s sender ts h r
  | .addNotaryOp sender t => addNotary s sender t
  | .removeNotaryOp sender t => removeNotary s sender t

/-- Effective transition: a reverting transaction leaves the state
unchanged. -/
def exec (s : ContractState) (op : Op) : ContractState :=
  match applyOp s op with
  | .ok s' => s'
  | .error _ => s

/-- Run a sequence of transactions. -/
def execAll (s : ContractState) (ops : List Op) : ContractState :=
  ops.foldl exec s

/-- A state is reachable when it arises from deployment followed by
some sequence of transactions. -/
def Reachable (s : ContractState) : Prop :=
  ∃ deployer ops, s = execAll (initialState deployer) ops

/-- A mapping slot whose document was never created is still fully
zero-initialised: no stale document data, no versions, zero latest
pointer. -/
def FreshSlot (s : ContractState) : Prop :=
  ∀ h, (s.documents h).exists = false →
    s.documents h = emptyDocument ∧ s.documentVersions h = [] ∧
    s.latestVersionHash h = 0

/-- Per-document invariant: the signed set sits inside the required
signers, `signerCount` counts it exactly, SIGNED/APPROVED can only
hold once the count reached the full list length, and ARCHIVED never
occurs. -/
def DocInv (d : NotarizedDocument) : Prop :=
  d.hasSigned ⊆ d.requiredSigners.toFinset ∧
  d.signerCount = d.hasSigned.card ∧
  ((d.status = .SIGNED ∨ d.status = .APPROVED) →
    d.signerCount = d.requiredSigners.length) ∧
  d.status ≠ .ARCHIVED

/-- Version-array invariant: empty, or the last entry is the unique
one flagged latest. -/
def LatestOk (vs : List DocumentVersion) : Prop :=
  vs = [] ∨ ∃ ws v, vs = ws ++ [v] ∧ v.isLatest = true ∧
    ∀ w ∈ ws, w.isLatest = false

/-- Global state invariant. -/
def Inv (s : ContractState) : Prop :=
  FreshSlot s ∧ (∀ h, DocInv (s.documents h)) ∧
  (∀ h, LatestOk (s.documentVersions h))

/-- A document slot created as the new hash of a version: it exists
but roots no lineage of its own. -/
def VersionDoc (s : ContractState) (h : Hash) : Prop :=
  (s.documents h).exists = true ∧ s.documentVersions h = [] ∧
  s.latestVersionHash h = 0

/-- Example trace: deployer 0 notarizes document 1 with required
signers 1 and 2. -/
def exOps1 : List Op := [.notarize 0 10 1 "contract" [1, 2]]

def exState1 : ContractState := execAll (initialState 0) exOps1

/-- Example trace: as `exOps1`, then signer 1 signs (document stays
PENDING since signer 2 is missing). -/
def exOpsPart : List Op := [.notarize 0 10 1 "contract" [1, 2], .sign 1 11 1]

def exStatePart : ContractState := execAll (initialState 0) exOpsPart

/-- Example trace: sole required signer 1 signs, so document 1 becomes
SIGNED. -/
def exOpsSigned : List Op := [.notarize 0 10 1 "contract" [1], .sign 1 11 1]

def exStateSigned : ContractState := execAll (initialState 0) exOpsSigned

/-- Example trace: document notarized with a duplicated required
signer. -/
def exOpsDup : List Op := [.notarize 0 10 1 "contract" [1, 1]]

def exStateDup : ContractState := execAll (initialState 0) exOpsDup

/-- Example trace: a single notarized document, ready for version
creation. -/
def exOpsVer : List Op := [.notarize 0 10 1 "contract" []]

def exStateVer : ContractState := execAll (initialState 0) exOpsVer

/-- Example trace: document 1 notarized, then version hash 2 appended
by caller 7. -/
def exOpsVer2 : List Op := [.notarize 0 10 1 "contract" [], .createVersion 7 11 1 2 "v2"]

def exStateVer2 : ContractState := execAll (initialState 0) exOpsVer2

theorem updFn_self {α : Type} (f : Nat → α) (k : Nat) (v : α) :
    updFn f k v k = v := by
  simp [updFn]

theorem updFn_ne {α : Type} (f : Nat → α) (k x : Nat) (v : α) (h : x ≠ k) :
    updFn f k v x = f x := by
  simp [updFn, h]

theorem inv_initialState (deployer : Addr) : Inv (initialState deployer) := by
  refine ⟨fun h _ => ⟨rfl, rfl, rfl⟩, fun h => ?_, fun h => Or.inl rfl⟩
  refine ⟨by simp [initialState, emptyDocument], by simp [initialState, emptyDocument], ?_, ?_⟩
  · intro hst
    simp [initialState, emptyDocument] at hst
  · simp [initialState, emptyDocument]

theorem inv_notarize (s s' : ContractState) (sender : Addr) (ts : Nat)
    (hash : Hash) (m : String) (rs : List Addr) (hs : Inv s)
    (hok : notarizeDocument s sender ts hash m rs = .ok s') : Inv s' := by
  obtain ⟨hfresh, hdoc, hlat⟩ := hs
  unfold notarizeDocument at hok
  split at hok
  · split at hok
    · exact absurd hok (by simp)
    · rename_i hnotex
      injection hok with hok
      subst hok
      have hempty := hfresh hash (by simpa using hnotex)
      refine ⟨?_, ?_, ?_⟩
      · intro h' hex'
        by_cases hh : h' = hash
        · subst hh
          simp [updFn] at hex'
        · simp only [updFn_ne _ _ _ _ hh] at hex' ⊢
          exact hfresh h' hex'
      · intro h'
        by_cases hh : h' = hash
        · subst hh
          simp only [updFn_self]
          rw [hempty.1]
          refine ⟨by simp [emptyDocument], by simp [emptyDocument], ?_, ?_⟩
          · intro hst
            simp [emptyDocument] at hst
          · simp [emptyDocument]
        · simp only [updFn_ne _ _ _ _ hh]
          exact hdoc h'
      · intro h'
        by_cases hh : h' = hash
        · subst hh
          simp only [updFn_self]
          rw [hempty.2.1]
          exact Or.inr ⟨[], _, rfl, rfl, by simp⟩
        · simp only [updFn_ne _ _ _ _ hh]
          exact hlat h'
  · exact absurd hok (by simp)

theorem clearFirstLatest_concat (ws : List DocumentVersion) (v : DocumentVersion)
    (hws : ∀ w ∈ ws, w.isLatest = false) (hv : v.isLatest = true) :
    clearFirstLatest (ws ++ [v]) = ws ++ [{ v with isLatest := false }] := by
  induction ws with
  | nil => simp [clearFirstLatest, hv]
  | cons w ws ih =>
      have hw := hws w (List.mem_cons_self w ws)
      simp only [List.cons_append, clearFirstLatest, hw, Bool.false_eq_true,
        if_false, List.append_eq]
      rw [ih (fun x hx => hws x (List.mem_cons_of_mem w hx))]

theorem inv_createVersion (s s' : ContractState) (sender : Addr) (ts : Nat)
    (orig new : Hash) (desc : String) (hs : Inv s)
    (hok : createDocumentVersion s sender ts orig new desc = .ok s') : Inv s' := by
  obtain ⟨hfresh, hdoc, hlat⟩ := hs
  unfold createDocumentVersion at hok
  split at hok
  case isFalse => exact absurd hok (by simp)
  case isTrue hex =>
    split at hok
    case isTrue => exact absurd hok (by simp)
    case isFalse hnew =>
      split at hok
      case isTrue => exact absurd hok (by simp)
      case isFalse hlen =>
        injection hok with hok
        subst hok
        have hne : orig ≠ new := by
          intro he
          rw [he] at hex
          exact hnew hex
        have hempty := hfresh new (by simpa using hnew)
        refine ⟨?_, ?_, ?_⟩
        · intro h' hex'
          by_cases hh : h' = new
          · subst hh
            simp [updFn] at hex'
          · simp only [updFn_ne _ _ _ _ hh] at hex' ⊢
            have hho : h' ≠ orig := by
              intro he
              rw [he] at hex'
              rw [hex] at hex'
              exact absurd hex' (by simp)
            simp only [updFn_ne _ _ _ _ hho]
            exact hfresh h' hex'
        · intro h'
          by_cases hh : h' = new
          · subst hh
            simp only [updFn_self]
            rw [hempty.1]
            refine ⟨by simp [emptyDocument], by simp [emptyDocument], ?_, ?_⟩
            · intro hst
              simp [emptyDocument] at hst
            · simp [emptyDocument]
          · simp only [updFn_ne _ _ _ _ hh]
            exact hdoc h'
        · intro h'
          by_cases hh : h' = orig
          · subst hh
            simp only [updFn_self]
            rcases hlat h' with hnil | ⟨ws, v, hvs, hvlat, hwsf⟩
            · exact absurd (by rw [hnil]; rfl) hlen
            · rw [hvs, clearFirstLatest_concat ws v hwsf hvlat]
              refine Or.inr ⟨ws ++ [{ v with isLatest := false }], _,
                by rw [List.append_assoc], rfl, ?_⟩
              intro w hw
              rcases List.mem_append.mp hw with hw | hw
              · exact hwsf w hw
              · rw [List.mem_singleton.mp hw]
          · simp only [updFn_ne _ _ _ _ hh]
            exact hlat h'

theorem inv_sign (s s' : ContractState) (sender : Addr) (ts : Nat) (hash : Hash)
    (hs : Inv s) (hok : signDocument s sender ts hash = .ok s') : Inv s' := by
  obtain ⟨hfresh, hdoc, hlat⟩ := hs
  unfold signDocument at hok
  split at hok
  case isFalse => exact absurd hok (by simp)
  case isTrue hex =>
    split at hok
    case isFalse => exact absurd hok (by simp)
    case isTrue hreq =>
      simp only [] at hok
      split at hok
      case isTrue => exact absurd hok (by simp)
      case isFalse hnotsigned =>
        split at hok
        case isFalse => exact absurd hok (by simp)
        case isTrue hpend =>
          injection hok with hok
          subst hok
          replace hreq : sender ∈ (s.documents hash).requiredSigners := by
            simpa [isRequiredSigner] using hreq
          obtain ⟨hsub, hcount, hfull, _⟩ := hdoc hash
          refine ⟨?_, ?_, ?_⟩
          · intro h' hex'
            by_cases hh : h' = hash
            · subst hh
              simp only [updFn_self] at hex'
              split at hex' <;> simp [hex] at hex'
            · simp only [updFn_ne _ _ _ _ hh] at hex' ⊢
              exact hfresh h' hex'
          · intro h'
            by_cases hh : h' = hash
            · subst hh
              simp only [updFn_self]
              have hmem : sender ∈ (s.documents h').requiredSigners.toFinset :=
                List.mem_toFinset.mpr hreq
              have hcard : (insert sender (s.documents h').hasSigned).card =
                  (s.documents h').hasSigned.card + 1 :=
                Finset.card_insert_of_not_mem hnotsigned
              split
              next hfl =>
                refine ⟨Finset.insert_subset hmem hsub, ?_, ?_, by simp⟩
                · simp only [hcard, hcount]
                · intro _
                  exact hfl
              next hfl =>
                refine ⟨Finset.insert_subset hmem hsub, ?_, ?_, ?_⟩
                · simp only [hcard, hcount]
                · intro hst
                  rw [hpend] at hst
                  simp at hst
                · rw [hpend]
                  simp
            · simp only [updFn_ne _ _ _ _ hh]
              exact hdoc h'
          · exact hlat

theorem inv_approve (s s' : ContractState) (sender : Addr) (ts : Nat) (hash : Hash)
    (hs : Inv s) (hok : approveDocument s sender ts hash = .ok s') : Inv s' := by
  obtain ⟨hfresh, hdoc, hlat⟩ := hs
  unfold approveDocument at hok
  split at hok
  case isFalse => exact absurd hok (by simp)
  case isTrue hex =>
    simp only [] at hok
    split at hok
    case isTrue => exact absurd hok (by simp)
    case isFalse hnotappr =>
      split at hok
      case isFalse => exact absurd hok (by simp)
      case isTrue hst =>
        injection hok with hok
        subst hok
        obtain ⟨hsub, hcount, hfull, _⟩ := hdoc hash
        refine ⟨?_, ?_, ?_⟩
        · intro h' hex'
          by_cases hh : h' = hash
          · subst hh
            simp only [updFn_self] at hex'
            split at hex' <;> simp [hex] at hex'
          · simp only [updFn_ne _ _ _ _ hh] at hex' ⊢
            exact hfresh h' hex'
        · intro h'
          by_cases hh : h' = hash
          · subst hh
            simp only [updFn_self]
            split
            next hsg =>
              refine ⟨hsub, hcount, ?_, by simp⟩
              intro _
              exact hfull (Or.inl hsg)
            next hsg =>
              have hpend : (s.documents h').status = .PENDING := by
                rcases hst with hst | hst
                · exact absurd hst hsg
                · exact hst
              refine ⟨hsub, hcount, ?_, ?_⟩
              · intro hc
                rw [hpend] at hc
                simp at hc
              · rw [hpend]
                simp
          · simp only [updFn_ne _ _ _ _ hh]
            exact hdoc h'
        · exact hlat

theorem inv_reject (s s' : ContractState) (sender : Addr) (ts : Nat) (hash : Hash)
    (reason : String) (hs : Inv s)
    (hok : rejectDocument s sender ts hash reason = .ok s') : Inv s' := by
  obtain ⟨hfresh, hdoc, hlat⟩ := hs
  unfold rejectDocument at hok
  split at hok
  case isFalse => exact absurd hok (by simp)
  case isTrue hex =>
    split at hok
    case isFalse => exact absurd hok (by simp)
    case isTrue hreq =>
      simp only [] at hok
      split at hok
      case isFalse => exact absurd hok (by simp)
      case isTrue hpend =>
        injection hok with hok
        subst hok
        obtain ⟨hsub, hcount, hfull, _⟩ := hdoc hash
        refine ⟨?_, ?_, ?_⟩
        · intro h' hex'
          by_cases hh : h' = hash
          · subst hh
            simp only [updFn_self] at hex'
            simp [hex] at hex'
          · simp only [updFn_ne _ _ _ _ hh] at hex' ⊢
            exact hfresh h' hex'
        · intro h'
          by_cases hh : h' = hash
          · subst hh
            simp only [updFn_self]
            refine ⟨hsub, hcount, ?_, by simp⟩
            intro hc
            simp at hc
          · simp only [updFn_ne _ _ _ _ hh]
            exact hdoc h'
        · exact hlat

theorem inv_addNotary (s s' : ContractState) (sender target : Addr) (hs : Inv s)
    (hok : addNotary s sender target = .ok s') : Inv s' := by
  unfold addNotary at hok
  split at hok
  · injection hok with hok
    subst hok
    exact hs
  · exact absurd hok (by simp)

theorem inv_removeNotary (s s' : ContractState) (sender target : Addr) (hs : Inv s)
    (hok : removeNotary s sender target = .ok s') : Inv s' := by
  unfold removeNotary at hok
  split at hok
  · injection hok with hok
    subst hok
    exact hs
  · exact absurd hok (by simp)

theorem inv_exec (s : ContractState) (op : Op) (hs : Inv s) : Inv (exec s op) := by
  unfold exec
  cases hop : applyOp s op with
  | error e => exact hs
  | ok s' =>
      cases op with
      | notarize sender ts h m rs => exact inv_notarize s s' sender ts h m rs hs hop
      | createVersion sender ts o n d => exact inv_createVersion s s' sender ts o n d hs hop
      | sign sender ts h => exact inv_sign s s' sender ts h hs hop
      | approve sender ts h => exact inv_approve s s' sender ts h hs hop
      | reject sender ts h r => exact inv_reject s s' sender ts h r hs hop
      | addNotaryOp sender t => exact inv_addNotary s s' sender t hs hop
      | removeNotaryOp sender t => exact inv_removeNotary s s' sender t hs hop

theorem execAll_inv (ops : List Op) : ∀ s, Inv s → Inv (execAll s ops) := by
  induction ops with
  | nil => exact fun s hs => hs
  | cons op ops ih =>
      intro s hs
      exact ih (exec s op) (inv_exec s op hs)

theorem reachable_inv (s : ContractState) (hs : Reachable s) : Inv s := by
  obtain ⟨d, ops, rfl⟩ := hs
  exact execAll_inv ops _ (inv_initialState d)

theorem exec_error (s : ContractState) (op : Op) (e : NotaryError)
    (he : applyOp s op = .error e) : exec s op = s := by
  unfold exec
  rw [he]

theorem notarize_status (s s' : ContractState) (sender : Addr) (ts : Nat)
    (hash : Hash) (m : String) (rs : List Addr) (h : Hash) (hfresh : FreshSlot s)
    (hok : notarizeDocument s sender ts hash m rs = .ok s') :
    (s'.documents h).status = (s.documents h).status := by
  unfold notarizeDocument at hok
  split at hok
  case isFalse => exact absurd hok (by simp)
  case isTrue =>
    split at hok
    case isTrue => exact absurd hok (by simp)
    case isFalse hnotex =>
      injection hok with hok
      subst hok
      by_cases hh : h = hash
      · subst hh
        simp only [updFn_self]
        rw [(hfresh h (by simpa using hnotex)).1]
        rfl
      · simp only [updFn_ne _ _ _ _ hh]

theorem createVersion_status (s s' : ContractState) (sender : Addr) (ts : Nat)
    (orig new : Hash) (desc : String) (h : Hash) (hfresh : FreshSlot s)
    (hok : createDocumentVersion s sender ts orig new desc = .ok s') :
    (s'.documents h).status = (s.documents h).status := by
  unfold createDocumentVersion at hok
  split at hok
  case isFalse => exact absurd hok (by simp)
  case isTrue hex =>
    split at hok
    case isTrue => exact absurd hok (by simp)
    case isFalse hnew =>
      split at hok
      case isTrue => exact absurd hok (by simp)
      case isFalse hlen =>
        injection hok with hok
        subst hok
        by_cases hh : h = new
        · subst hh
          simp only [updFn_self]
          rw [(hfresh h (by simpa using hnew)).1]
          rfl
        · simp only [updFn_ne _ _ _ _ hh]

theorem sign_status (s s' : ContractState) (sender : Addr) (ts : Nat)
    (hash h : Hash) (hok : signDocument s sender ts hash = .ok s') :
    (s'.documents h).status = (s.documents h).status ∨
    (h = hash ∧ (s.documents h).status = .PENDING ∧
      (s'.documents h).status = .SIGNED ∧
      (s'.documents h).signerCount = (s'.documents h).requiredSigners.length) := by
  unfold signDocument at hok
  split at hok
  case isFalse => exact absurd hok (by simp)
  case isTrue hex =>
    split at hok
    case isFalse => exact absurd hok (by simp)
    case isTrue hreq =>
      simp only [] at hok
      split at hok
      case isTrue => exact absurd hok (by simp)
      case isFalse hns =>
        split at hok
        case isFalse => exact absurd hok (by simp)
        case isTrue hpend =>
          injection hok with hok
          subst hok
          by_cases hh : h = hash
          · subst hh
            simp only [updFn_self]
            split
            next hfl => exact Or.inr ⟨trivial, hpend, rfl, hfl⟩
            next hfl => exact Or.inl rfl
          · exact Or.inl (by simp only [updFn_ne _ _ _ _ hh])

theorem approve_status (s s' : ContractState) (sender : Addr) (ts : Nat)
    (hash h : Hash) (hok : approveDocument s sender ts hash = .ok s') :
    (s'.documents h).status = (s.documents h).status ∨
    (h = hash ∧ (s.documents h).status = .SIGNED ∧
      (s'.documents h).status = .APPROVED) := by
  unfold approveDocument at hok
  split at hok
  case isFalse => exact absurd hok (by simp)
  case isTrue hex =>
    simp only [] at hok
    split at hok
    case isTrue => exact absurd hok (by simp)
    case isFalse hna =>
      split at hok
      case isFalse => exact absurd hok (by simp)
      case isTrue hst =>
        injection hok with hok
        subst hok
        by_cases hh : h = hash
        · subst hh
          simp only [updFn_self]
          split
          next hsg => exact Or.inr ⟨trivial, hsg, rfl⟩
          next hsg => exact Or.inl rfl
        · exact Or.inl (by simp only [updFn_ne _ _ _ _ hh])

theorem reject_status (s s' : ContractState) (sender : Addr) (ts : Nat)
    (hash h : Hash) (reason : String)
    (hok : rejectDocument s sender ts hash reason = .ok s') :
    (s'.documents h).status = (s.documents h).status ∨
    (h = hash ∧ (s.documents h).status = .PENDING ∧
      (s'.documents h).status = .REJECTED) := by
  unfold rejectDocument at hok
  split at hok
  case isFalse => exact absurd hok (by simp)
  case isTrue hex =>
    split at hok
    case isFalse => exact absurd hok (by simp)
    case isTrue hreq =>
      simp only [] at hok
      split at hok
      case isFalse => exact absurd hok (by simp)
      case isTrue hpend =>
        injection hok with hok
        subst hok
        by_cases hh : h = hash
        · subst hh
          simp only [updFn_self]
          exact Or.inr ⟨trivial, hpend, trivial⟩
        · exact Or.inl (by simp only [updFn_ne _ _ _ _ hh])

theorem addNotary_documents (s s' : ContractState) (sender target : Addr)
    (hok : addNotary s sender target = .ok s') : s'.documents = s.documents := by
  unfold addNotary at hok
  split at hok
  · injection hok with hok
    subst hok
    rfl
  · exact absurd hok (by simp)

theorem removeNotary_documents (s s' : ContractState) (sender target : Addr)
    (hok : removeNotary s sender target = .ok s') : s'.documents = s.documents := by
  unfold removeNotary at hok
  split at hok
  · injection hok with hok
    subst hok
    rfl
  · exact absurd hok (by simp)

/-- C1: for every reachable state and every document, the status only
ever changes by PENDING to SIGNED (a successful sign on that hash that
makes signerCount reach the required-signer list length), SIGNED to
APPROVED (a successful approve on that hash), or PENDING to REJECTED
(a successful reject on that hash); no operation performs any other
status change, and no document's status is ever ARCHIVED. -/
theorem claim1_status_transitions (s : ContractState) (hs : Reachable s)
    (op : Op) (h : Hash) :
    (s.documents h).status ≠ .ARCHIVED ∧
    (((exec s op).documents h).status = (s.documents h).status ∨
      ((s.documents h).status = .PENDING ∧
        ((exec s op).documents h).status = .SIGNED ∧
        (∃ sender ts, op = .sign sender ts h) ∧
        ((exec s op).documents h).signerCount =
          ((exec s op).documents h).requiredSigners.length) ∨
      ((s.documents h).status = .SIGNED ∧
        ((exec s op).documents h).status = .APPROVED ∧
        ∃ sender ts, op = .approve sender ts h) ∨
      ((s.documents h).status = .PENDING ∧
        ((exec s op).documents h).status = .REJECTED ∧
        ∃ sender ts reason, op = .reject sender ts h reason)) := by
  obtain ⟨hfresh, hdoc, hlat⟩ := reachable_inv s hs
  refine ⟨(hdoc h).2.2.2, ?_⟩
  unfold exec
  cases hop : applyOp s op with
  | error e => exact Or.inl rfl
  | ok s' =>
      cases op with
      | notarize sender ts hash m rs =>
          exact Or.inl (notarize_status s s' sender ts hash m rs h hfresh hop)
      | createVersion sender ts o n d =>
          exact Or.inl (createVersion_status s s' sender ts o n d h hfresh hop)
      | sign sender ts hash =>
          rcases sign_status s s' sender ts hash h hop with heq | ⟨hh, h1, h2, h3⟩
          · exact Or.inl heq
          · subst hh
            exact Or.inr (Or.inl ⟨h1, h2, ⟨sender, ts, rfl⟩, h3⟩)
      | approve sender ts hash =>
          rcases approve_status s s' sender ts hash h hop with heq | ⟨hh, h1, h2⟩
          · exact Or.inl heq
          · subst hh
            exact Or.inr (Or.inr (Or.inl ⟨h1, h2, sender, ts, rfl⟩))
      | reject sender ts hash r =>
          rcases reject_status s s' sender ts hash h r hop with heq | ⟨hh, h1, h2⟩
          · exact Or.inl heq
          · subst hh
            exact Or.inr (Or.inr (Or.inr ⟨h1, h2, sender, ts, r, rfl⟩))
      | addNotaryOp sender t =>
          exact Or.inl (by rw [addNotary_documents s s' sender t hop])
      | removeNotaryOp sender t =>
          exact Or.inl (by rw [removeNotary_documents s s' sender t hop])

/-- Witness for C1: the transition property instantiated at a concrete
reachable state and operation. -/
theorem claim1_status_transitions_witness :
    Reachable exState1 ∧
    ((exState1.documents 1).status ≠ .ARCHIVED ∧
      (((exec exState1 (.approve 3 13 1)).documents 1).status =
          (exState1.documents 1).status ∨
        ((exState1.documents 1).status = .PENDING ∧
          ((exec exState1 (.approve 3 13 1)).documents 1).status = .SIGNED ∧
          (∃ sender ts, (Op.approve 3 13 1) = .sign sender ts 1) ∧
          ((exec exState1 (.approve 3 13 1)).documents 1).signerCount =
            ((exec exState1 (.approve 3 13 1)).documents 1).requiredSigners.length) ∨
        ((exState1.documents 1).status = .SIGNED ∧
          ((exec exState1 (.approve 3 13 1)).documents 1).status = .APPROVED ∧
          ∃ sender ts, (Op.approve 3 13 1) = .approve sender ts 1) ∨
        ((exState1.documents 1).status = .PENDING ∧
          ((exec exState1 (.approve 3 13 1)).documents 1).status = .REJECTED ∧
          ∃ sender ts reason, (Op.approve 3 13 1) = .reject sender ts 1 reason))) :=
  ⟨⟨0, exOps1, rfl⟩,
    claim1_status_transitions exState1 ⟨0, exOps1, rfl⟩ (.approve 3 13 1) 1⟩

/-- C2: in every reachable state, `signerCount` never exceeds the
length of `requiredSigners`, and for an identity that has signed, a
second `signDocument` call always reverts with the already-signed
conflict and leaves the whole state unchanged. -/
theorem claim2_sign_at_most_once (s : ContractState) (hs : Reachable s)
    (h : Hash) :
    (s.documents h).signerCount ≤ (s.documents h).requiredSigners.length ∧
    ∀ sender, sender ∈ (s.documents h).hasSigned → ∀ ts,
      signDocument s sender ts h = .error (.Conflict "Already signed") ∧
      exec s (.sign sender ts h) = s := by
  obtain ⟨hfresh, hdoc, hlat⟩ := reachable_inv s hs
  obtain ⟨hsub, hcount, hfull, harch⟩ := hdoc h
  constructor
  · calc (s.documents h).signerCount
        = (s.documents h).hasSigned.card := hcount
      _ ≤ (s.documents h).requiredSigners.toFinset.card :=
        Finset.card_le_card hsub
      _ ≤ (s.documents h).requiredSigners.length :=
        List.toFinset_card_le (s.documents h).requiredSigners
  · intro sender hmem ts
    have hex : (s.documents h).exists = true := by
      by_contra hnex
      rw [(hfresh h (by simpa using hnex)).1] at hmem
      simp [emptyDocument] at hmem
    have hreq : isRequiredSigner s h sender = true := by
      have hm : sender ∈ (s.documents h).requiredSigners :=
        List.mem_toFinset.mp (hsub hmem)
      simp [isRequiredSigner, hm]
    have herr : signDocument s sender ts h = .error (.Conflict "Already signed") := by
      simp [signDocument, hex, hreq, hmem]
    exact ⟨herr, exec_error s (.sign sender ts h) _ herr⟩

/-- Witness for C2: after notarizing with signers 1 and 2 and a first
signature from 1, a second signature from 1 reverts. -/
theorem claim2_sign_at_most_once_witness :
    Reachable exStatePart ∧
    (exStatePart.documents 1).signerCount ≤
      (exStatePart.documents 1).requiredSigners.length ∧
    1 ∈ (exStatePart.documents 1).hasSigned ∧
    signDocument exStatePart 1 12 1 = .error (.Conflict "Already signed") ∧
    exec exStatePart (.sign 1 12 1) = exStatePart :=
  ⟨⟨0, exOpsPart, rfl⟩,
    (claim2_sign_at_most_once exStatePart ⟨0, exOpsPart, rfl⟩ 1).1,
    by decide,
    ((claim2_sign_at_most_once exStatePart ⟨0, exOpsPart, rfl⟩ 1).2 1 (by decide) 12).1,
    ((claim2_sign_at_most_once exStatePart ⟨0, exOpsPart, rfl⟩ 1).2 1 (by decide) 12).2⟩

/-- C3: in every reachable state, every non-empty version sequence has
exactly one entry flagged latest, and it is the last-appended one. -/
theorem claim3_unique_latest (s : ContractState) (hs : Reachable s) (h : Hash)
    (hne : s.documentVersions h ≠ []) :
    (s.documentVersions h).countP (fun v => v.isLatest) = 1 ∧
    ∀ v, (s.documentVersions h).getLast? = some v → v.isLatest = true := by
  obtain ⟨hfresh, hdoc, hlat⟩ := reachable_inv s hs
  rcases hlat h with hnil | ⟨ws, v, hvs, hvlat, hwsf⟩
  · exact absurd hnil hne
  · rw [hvs]
    constructor
    · rw [List.countP_append]
      have h0 : ws.countP (fun v => v.isLatest) = 0 :=
        List.countP_eq_zero.mpr (fun w hw => by simp [hwsf w hw])
      simp [h0, hvlat]
    · intro u hu
      rw [List.getLast?_concat] at hu
      injection hu with hu
      rw [← hu]
      exact hvlat

/-- C4 counterexample: document 1 already exists in `exState1`, yet a
repeat notarize by the unauthorized caller 2 reverts with
Unauthorized, not with the Conflict error the claim promises for
every caller. -/
theorem claim4_counterexample :
    Reachable exState1 ∧
    (exState1.documents 1).exists = true ∧
    notarizeDocument exState1 2 20 1 "again" [] =
      .error (.Unauthorized "Not authorized notary") ∧
    notarizeDocument exState1 2 20 1 "again" [] ≠
      .error (.Conflict "Document already notarized") := by
  refine ⟨⟨0, exOps1, rfl⟩, rfl, rfl, ?_⟩
  intro hc
  have heq : notarizeDocument exState1 2 20 1 "again" [] =
      .error (.Unauthorized "Not authorized notary") := rfl
  rw [heq] at hc
  simp at hc

/-- C4 amended: once a document exists at a hash, every subsequent
notarize of that hash fails and leaves the entire state unchanged; the
error is Conflict for authorized notaries (or the owner) and
Unauthorized for everyone else. -/
theorem claim4_notarize_at_most_once (s : ContractState) (h : Hash)
    (hex : (s.documents h).exists = true) (sender : Addr) (ts : Nat)
    (m : String) (rs : List Addr) :
    ((s.authorizedNotaries sender || sender == s.owner) = true →
      notarizeDocument s sender ts h m rs =
        .error (.Conflict "Document already notarized")) ∧
    ((s.authorizedNotaries sender || sender == s.owner) = false →
      notarizeDocument s sender ts h m rs =
        .error (.Unauthorized "Not authorized notary")) ∧
    exec s (.notarize sender ts h m rs) = s := by
  refine ⟨?_, ?_, ?_⟩
  · intro hauth
    simp [notarizeDocument, hauth, hex]
  · intro hauth
    simp [notarizeDocument, hauth]
  · cases hauth : (s.authorizedNotaries sender || sender == s.owner) with
    | true =>
        exact exec_error _ _ (.Conflict "Document already notarized")
          (by simp [applyOp, notarizeDocument, hauth, hex])
    | false =>
        exact exec_error _ _ (.Unauthorized "Not authorized notary")
          (by simp [applyOp, notarizeDocument, hauth])

/-- Witness for C4 amended, at the concrete state with document 1
notarized and the unauthorized caller 2. -/
theorem claim4_notarize_at_most_once_witness :
    (exState1.documents 1).exists = true ∧
    (((exState1.authorizedNotaries 2 || 2 == exState1.owner) = true →
      notarizeDocument exState1 2 21 1 "x" [] =
        .error (.Conflict "Document already notarized")) ∧
    ((exState1.authorizedNotaries 2 || 2 == exState1.owner) = false →
      notarizeDocument exState1 2 21 1 "x" [] =
        .error (.Unauthorized "Not authorized notary")) ∧
    exec exState1 (.notarize 2 21 1 "x" []) = exState1) :=
  ⟨rfl, claim4_notarize_at_most_once exState1 1 rfl 2 21 "x" []⟩

/-- C5: for an existing document, a fresh approver succeeds on PENDING
(count up, status stays PENDING) and on SIGNED (count up, status to
APPROVED), fails with InvalidState on APPROVED or REJECTED, and a
repeat approver always gets the already-approved conflict; no
required-signer membership is ever demanded. -/
theorem claim5_approve_semantics (s : ContractState) (h : Hash)
    (hex : (s.documents h).exists = true) (sender : Addr) (ts : Nat) :
    (sender ∉ (s.documents h).hasApproved → (s.documents h).status = .PENDING →
      approveDocument s sender ts h = .ok (exec s (.approve sender ts h)) ∧
      ((exec s (.approve sender ts h)).documents h).approverCount =
        (s.documents h).approverCount + 1 ∧
      ((exec s (.approve sender ts h)).documents h).status = .PENDING) ∧
    (sender ∉ (s.documents h).hasApproved → (s.documents h).status = .SIGNED →
      approveDocument s sender ts h = .ok (exec s (.approve sender ts h)) ∧
      ((exec s (.approve sender ts h)).documents h).approverCount =
        (s.documents h).approverCount + 1 ∧
      ((exec s (.approve sender ts h)).documents h).status = .APPROVED) ∧
    (sender ∉ (s.documents h).hasApproved →
      ((s.documents h).status = .APPROVED ∨ (s.documents h).status = .REJECTED) →
      approveDocument s sender ts h =
        .error (.InvalidState "Invalid document status")) ∧
    (sender ∈ (s.documents h).hasApproved →
      approveDocument s sender ts h = .error (.Conflict "Already approved")) := by
  refine ⟨?_, ?_, ?_, ?_⟩
  · intro hna hpend
    refine ⟨?_, ?_, ?_⟩ <;>
      simp [approveDocument, exec, applyOp, updFn, hex, hna, hpend]
  · intro hna hsg
    refine ⟨?_, ?_, ?_⟩ <;>
      simp [approveDocument, exec, applyOp, updFn, hex, hna, hsg]
  · intro hna hst
    rcases hst with hst | hst <;>
      simp [approveDocument, hex, hna, hst]
  · intro hmem
    simp [approveDocument, hex, hmem]

/-- Witness for C5 at the concrete PENDING document 1 of `exState1`
with the fresh approver 3. -/
theorem claim5_approve_semantics_witness :
    (exState1.documents 1).exists = true ∧
    ((3 ∉ (exState1.documents 1).hasApproved →
      (exState1.documents 1).status = .PENDING →
      approveDocument exState1 3 13 1 = .ok (exec exState1 (.approve 3 13 1)) ∧
      ((exec exState1 (.approve 3 13 1)).documents 1).approverCount =
        (exState1.documents 1).approverCount + 1 ∧
      ((exec exState1 (.approve 3 13 1)).documents 1).status = .PENDING) ∧
    (3 ∉ (exState1.documents 1).hasApproved →
      (exState1.documents 1).status = .SIGNED →
      approveDocument exState1 3 13 1 = .ok (exec exState1 (.approve 3 13 1)) ∧
      ((exec exState1 (.approve 3 13 1)).documents 1).approverCount =
        (exState1.documents 1).approverCount + 1 ∧
      ((exec exState1 (.approve 3 13 1)).documents 1).status = .APPROVED) ∧
    (3 ∉ (exState1.documents 1).hasApproved →
      ((exState1.documents 1).status = .APPROVED ∨
        (exState1.documents 1).status = .REJECTED) →
      approveDocument exState1 3 13 1 =
        .error (.InvalidState "Invalid document status")) ∧
    (3 ∈ (exState1.documents 1).hasApproved →
      approveDocument exState1 3 13 1 = .error (.Conflict "Already approved"))) :=
  ⟨rfl, claim5_approve_semantics exState1 1 rfl 3 13⟩

theorem clearFirstLatest_length (vs : List DocumentVersion) :
    (clearFirstLatest vs).length = vs.length := by
  induction vs with
  | nil => rfl
  | cons v vs ih =>
      unfold clearFirstLatest
      split
      · simp
      · simp [ih]

/-- C6: a successful createVersion appends a version record carrying
number previous-length + 1, the lineage's previous latest hash, and
the latest flag; it repoints the lineage's latest pointer to the new
hash and creates a PENDING document there copying the original's
notary and required signers with zero counts. -/
theorem claim6_createVersion_effects (s : ContractState) (hs : Reachable s)
    (sender : Addr) (ts : Nat) (orig new : Hash) (desc : String)
    (hex : (s.documents orig).exists = true)
    (hnew : (s.documents new).exists = false)
    (hvs : s.documentVersions orig ≠ []) :
    createDocumentVersion s sender ts orig new desc =
      .ok (exec s (.createVersion sender ts orig new desc)) ∧
    ((exec s (.createVersion sender ts orig new desc)).documentVersions orig).getLast? =
      some { documentHash := new
             version := (s.documentVersions orig).length + 1
             previousVersionHash := s.latestVersionHash orig
             creator := sender
             timestamp := ts
             changeDescription := desc
             isLatest := true } ∧
    ((exec s (.createVersion sender ts orig new desc)).documentVersions orig).length =
      (s.documentVersions orig).length + 1 ∧
    (exec s (.createVersion sender ts orig new desc)).latestVersionHash orig = new ∧
    ((exec s (.createVersion sender ts orig new desc)).documents new).exists = true ∧
    ((exec s (.createVersion sender ts orig new desc)).documents new).notary =
      (s.documents orig).notary ∧
    ((exec s (.createVersion sender ts orig new desc)).documents new).requiredSigners =
      (s.documents orig).requiredSigners ∧
    ((exec s (.createVersion sender ts orig new desc)).documents new).status = .PENDING ∧
    ((exec s (.createVersion sender ts orig new desc)).documents new).signerCount = 0 ∧
    ((exec s (.createVersion sender ts orig new desc)).documents new).approverCount = 0 := by
  obtain ⟨hfresh, hdoc, hlat⟩ := reachable_inv s hs
  have hlen : ¬ (s.documentVersions orig).length = 0 := by
    simpa [List.length_eq_zero] using hvs
  have hnexb : ¬ (s.documents new).exists = true := by
    simp [hnew]
  have hfr : s.documents new = emptyDocument := (hfresh new hnew).1
  refine ⟨?_, ?_, ?_, ?_, ?_, ?_, ?_, ?_, ?_, ?_⟩ <;>
    simp [createDocumentVersion, exec, applyOp, updFn, hex, hnexb, hlen,
      List.getLast?_concat, clearFirstLatest_length, hfr, emptyDocument]

/-- Witness for C3: after notarize plus one createVersion the lineage
of document 1 has exactly one latest entry, sitting last. -/
theorem claim3_unique_latest_witness :
    Reachable exStateVer2 ∧ exStateVer2.documentVersions 1 ≠ [] ∧
    ((exStateVer2.documentVersions 1).countP (fun v => v.isLatest) = 1 ∧
      ∀ v, (exStateVer2.documentVersions 1).getLast? = some v →
        v.isLatest = true) :=
  ⟨⟨0, exOpsVer2, rfl⟩, by decide,
    claim3_unique_latest exStateVer2 ⟨0, exOpsVer2, rfl⟩ 1 (by decide)⟩

/-- Witness for C6: creating version hash 2 for document 1 in
`exStateVer` produces exactly the specified record and document. -/
theorem claim6_createVersion_effects_witness :
    Reachable exStateVer ∧
    (exStateVer.documents 1).exists = true ∧
    (exStateVer.documents 2).exists = false ∧
    exStateVer.documentVersions 1 ≠ [] ∧
    (createDocumentVersion exStateVer 7 11 1 2 "v2" =
      .ok (exec exStateVer (.createVersion 7 11 1 2 "v2")) ∧
    ((exec exStateVer (.createVersion 7 11 1 2 "v2")).documentVersions 1).getLast? =
      some { documentHash := 2
             version := (exStateVer.documentVersions 1).length + 1
             previousVersionHash := exStateVer.latestVersionHash 1
             creator := 7
             timestamp := 11
             changeDescription := "v2"
             isLatest := true } ∧
    ((exec exStateVer (.createVersion 7 11 1 2 "v2")).documentVersions 1).length =
      (exStateVer.documentVersions 1).length + 1 ∧
    (exec exStateVer (.createVersion 7 11 1 2 "v2")).latestVersionHash 1 = 2 ∧
    ((exec exStateVer (.createVersion 7 11 1 2 "v2")).documents 2).exists = true ∧
    ((exec exStateVer (.createVersion 7 11 1 2 "v2")).documents 2).notary =
      (exStateVer.documents 1).notary ∧
    ((exec exStateVer (.createVersion 7 11 1 2 "v2")).documents 2).requiredSigners =
      (exStateVer.documents 1).requiredSigners ∧
    ((exec exStateVer (.createVersion 7 11 1 2 "v2")).documents 2).status = .PENDING ∧
    ((exec exStateVer (.createVersion 7 11 1 2 "v2")).documents 2).signerCount = 0 ∧
    ((exec exStateVer (.createVersion 7 11 1 2 "v2")).documents 2).approverCount = 0) :=
  ⟨⟨0, exOpsVer, rfl⟩, rfl, rfl, by decide,
    claim6_createVersion_effects exStateVer ⟨0, exOpsVer, rfl⟩ 7 11 1 2 "v2"
      rfl rfl (by decide)⟩

/-- C7 counterexample: document 1 of `exStateSigned` is SIGNED, yet a
reject by caller 5, who is not a required signer, reverts with
Unauthorized rather than the InvalidState error the claim promises for
every caller. -/
theorem claim7_counterexample :
    Reachable exStateSigned ∧
    (exStateSigned.documents 1).exists = true ∧
    (exStateSigned.documents 1).status = .SIGNED ∧
    rejectDocument exStateSigned 5 12 1 "bad" =
      .error (.Unauthorized "Not a required signer") ∧
    rejectDocument exStateSigned 5 12 1 "bad" ≠
      .error (.InvalidState "Can only reject pending documents") := by
  refine ⟨⟨0, exOpsSigned, rfl⟩, rfl, rfl, rfl, ?_⟩
  intro hc
  have heq : rejectDocument exStateSigned 5 12 1 "bad" =
      .error (.Unauthorized "Not a required signer") := rfl
  rw [heq] at hc
  simp at hc

/-- C7 amended: on an existing document whose status is SIGNED,
APPROVED or REJECTED, reject always fails and leaves the state
unchanged; the error is InvalidState for required signers and
Unauthorized for everyone else. -/
theorem claim7_reject_nonpending (s : ContractState) (h : Hash) (sender : Addr)
    (ts : Nat) (reason : String) (hex : (s.documents h).exists = true)
    (hst : (s.documents h).status = .SIGNED ∨ (s.documents h).status = .APPROVED ∨
      (s.documents h).status = .REJECTED) :
    (isRequiredSigner s h sender = true →
      rejectDocument s sender ts h reason =
        .error (.InvalidState "Can only reject pending documents")) ∧
    (isRequiredSigner s h sender = false →
      rejectDocument s sender ts h reason =
        .error (.Unauthorized "Not a required signer")) ∧
    exec s (.reject sender ts h reason) = s := by
  have hnp : ¬ (s.documents h).status = .PENDING := by
    rcases hst with hst | hst | hst <;> simp [hst]
  refine ⟨?_, ?_, ?_⟩
  · intro hreq
    simp [rejectDocument, hex, hreq, hnp]
  · intro hreq
    simp [rejectDocument, hex, hreq]
  · cases hreq : isRequiredSigner s h sender with
    | true =>
        exact exec_error _ _ (.InvalidState "Can only reject pending documents")
          (by simp [applyOp, rejectDocument, hex, hreq, hnp])
    | false =>
        exact exec_error _ _ (.Unauthorized "Not a required signer")
          (by simp [applyOp, rejectDocument, hex, hreq])

/-- Witness for C7 amended, at the SIGNED document 1 of
`exStateSigned` with the required signer 1 as caller. -/
theorem claim7_reject_nonpending_witness :
    (exStateSigned.documents 1).exists = true ∧
    ((exStateSigned.documents 1).status = .SIGNED ∨
      (exStateSigned.documents 1).status = .APPROVED ∨
      (exStateSigned.documents 1).status = .REJECTED) ∧
    ((isRequiredSigner exStateSigned 1 1 = true →
      rejectDocument exStateSigned 1 12 1 "no" =
        .error (.InvalidState "Can only reject pending documents")) ∧
    (isRequiredSigner exStateSigned 1 1 = false →
      rejectDocument exStateSigned 1 12 1 "no" =
        .error (.Unauthorized "Not a required signer")) ∧
    exec exStateSigned (.reject 1 12 1 "no") = exStateSigned) :=
  ⟨rfl, Or.inl rfl,
    claim7_reject_nonpending exStateSigned 1 1 12 "no" rfl (Or.inl rfl)⟩

/-- C8: a document whose required-signer list contains a duplicate can
never have signerCount reach the list length, so it is never SIGNED
and never APPROVED. -/
theorem claim8_duplicate_signers (s : ContractState) (hs : Reachable s)
    (h : Hash) (hdup : ¬ (s.documents h).requiredSigners.Nodup) :
    (s.documents h).signerCount < (s.documents h).requiredSigners.length ∧
    (s.documents h).status ≠ .SIGNED ∧ (s.documents h).status ≠ .APPROVED := by
  obtain ⟨hfresh, hdoc, hlat⟩ := reachable_inv s hs
  obtain ⟨hsub, hcount, hfull, harch⟩ := hdoc h
  have hcardlt : (s.documents h).requiredSigners.toFinset.card <
      (s.documents h).requiredSigners.length := by
    rcases Nat.lt_or_ge (s.documents h).requiredSigners.toFinset.card
        (s.documents h).requiredSigners.length with h1 | h1
    · exact h1
    · exfalso
      apply hdup
      have hle := List.toFinset_card_le (s.documents h).requiredSigners
      have heq : (s.documents h).requiredSigners.toFinset.card =
          (s.documents h).requiredSigners.length := le_antisymm hle h1
      rw [List.card_toFinset] at heq
      exact List.dedup_eq_self.mp
        ((List.dedup_sublist (s.documents h).requiredSigners).eq_of_length heq)
  have hle2 : (s.documents h).signerCount ≤
      (s.documents h).requiredSigners.toFinset.card := by
    rw [hcount]
    exact Finset.card_le_card hsub
  have hlt := lt_of_le_of_lt hle2 hcardlt
  refine ⟨hlt, ?_, ?_⟩
  · intro hsg
    have := hfull (Or.inl hsg)
    omega
  · intro hsg
    have := hfull (Or.inr hsg)
    omega

/-- Witness for C8 at the concrete document notarized with the
duplicated required-signer list containing 1 twice. -/
theorem claim8_duplicate_signers_witness :
    Reachable exStateDup ∧
    ¬ (exStateDup.documents 1).requiredSigners.Nodup ∧
    ((exStateDup.documents 1).signerCount <
      (exStateDup.documents 1).requiredSigners.length ∧
    (exStateDup.documents 1).status ≠ .SIGNED ∧
    (exStateDup.documents 1).status ≠ .APPROVED) :=
  ⟨⟨0, exOpsDup, rfl⟩, by decide,
    claim8_duplicate_signers exStateDup ⟨0, exOpsDup, rfl⟩ 1 (by decide)⟩

/-- C9: createDocumentVersion performs no authorization check: it
never fails with Unauthorized for any caller, and on success the
caller is recorded as the appended version's creator while the new
document keeps the original document's notary. -/
theorem claim9_createVersion_no_auth (s : ContractState) (sender : Addr)
    (ts : Nat) (orig new : Hash) (desc : String) :
    (∀ m, createDocumentVersion s sender ts orig new desc ≠
      .error (.Unauthorized m)) ∧
    ∀ s', createDocumentVersion s sender ts orig new desc = .ok s' →
      (∀ v, (s'.documentVersions orig).getLast? = some v → v.creator = sender) ∧
      (s'.documents new).notary = (s.documents orig).notary := by
  constructor
  · intro m hc
    unfold createDocumentVersion at hc
    split at hc
    · split at hc
      · simp at hc
      · split at hc
        · simp at hc
        · simp at hc
    · simp at hc
  · intro s' hok
    unfold createDocumentVersion at hok
    split at hok
    case isFalse => exact absurd hok (by simp)
    case isTrue hex =>
      split at hok
      case isTrue => exact absurd hok (by simp)
      case isFalse hnew =>
        split at hok
        case isTrue => exact absurd hok (by simp)
        case isFalse hlen =>
          injection hok with hok
          subst hok
          constructor
          · intro v hv
            simp only [updFn_self] at hv
            rw [List.getLast?_concat] at hv
            injection hv with hv
            rw [← hv]
          · simp only [updFn_self]

/-- Witness for C9: caller 7, who is neither owner nor notary nor a
required signer, successfully creates a version and is recorded as its
creator, while the new document keeps notary 0. -/
theorem claim9_createVersion_no_auth_witness :
    (∀ m, createDocumentVersion exStateVer 7 11 1 2 "v2" ≠
      .error (.Unauthorized m)) ∧
    ((∀ v, ((exec exStateVer (.createVersion 7 11 1 2 "v2")).documentVersions 1).getLast? =
        some v → v.creator = 7) ∧
      ((exec exStateVer (.createVersion 7 11 1 2 "v2")).documents 2).notary =
        (exStateVer.documents 1).notary) :=
  ⟨(claim9_createVersion_no_auth exStateVer 7 11 1 2 "v2").1,
    (claim9_createVersion_no_auth exStateVer 7 11 1 2 "v2").2
      (exec exStateVer (.createVersion 7 11 1 2 "v2")) rfl⟩

theorem versionDoc_exec (s : ContractState) (h : Hash) (op : Op)
    (hv : VersionDoc s h) : VersionDoc (exec s op) h := by
  obtain ⟨hex, hvs, hlv⟩ := hv
  unfold exec
  cases hop : applyOp s op with
  | error e => exact ⟨hex, hvs, hlv⟩
  | ok s' =>
      cases op with
      | notarize sender ts hash m rs =>
          show VersionDoc s' h
          replace hop : notarizeDocument s sender ts hash m rs = .ok s' := hop
          unfold notarizeDocument at hop
          split at hop
          case isFalse => exact absurd hop (by simp)
          case isTrue =>
            split at hop
            case isTrue => exact absurd hop (by simp)
            case isFalse hnx =>
              injection hop with hop
              subst hop
              have hneq : h ≠ hash := by
                intro he
                rw [← he] at hnx
                exact hnx hex
              refine ⟨?_, ?_, ?_⟩
              · simp only [updFn_ne _ _ _ _ hneq]
                exact hex
              · simp only [updFn_ne _ _ _ _ hneq]
                exact hvs
              · simp only [updFn_ne _ _ _ _ hneq]
                exact hlv
      | createVersion sender ts orig new d =>
          show VersionDoc s' h
          replace hop : createDocumentVersion s sender ts orig new d = .ok s' := hop
          unfold createDocumentVersion at hop
          split at hop
          case isFalse => exact absurd hop (by simp)
          case isTrue hexo =>
            split at hop
            case isTrue => exact absurd hop (by simp)
            case isFalse hnew =>
              split at hop
              case isTrue => exact absurd hop (by simp)
              case isFalse hlen =>
                injection hop with hop
                subst hop
                have hn1 : h ≠ new := by
                  intro he
                  rw [← he] at hnew
                  exact hnew hex
                have hn2 : h ≠ orig := by
                  intro he
                  rw [← he] at hlen
                  rw [hvs] at hlen
                  simp at hlen
                refine ⟨?_, ?_, ?_⟩
                · simp only [updFn_ne _ _ _ _ hn1]
                  exact hex
                · simp only [updFn_ne _ _ _ _ hn2]
                  exact hvs
                · simp only [updFn_ne _ _ _ _ hn2]
                  exact hlv
      | sign sender ts hash =>
          show VersionDoc s' h
          replace hop : signDocument s sender ts hash = .ok s' := hop
          unfold signDocument at hop
          split at hop
          case isFalse => exact absurd hop (by simp)
          case isTrue hexh =>
            split at hop
            case isFalse => exact absurd hop (by simp)
            case isTrue hreq =>
              simp only [] at hop
              split at hop
              case isTrue => exact absurd hop (by simp)
              case isFalse hns =>
                split at hop
                case isFalse => exact absurd hop (by simp)
                case isTrue hpend =>
                  injection hop with hop
                  subst hop
                  refine ⟨?_, hvs, hlv⟩
                  by_cases hh : h = hash
                  · subst hh
                    simp only [updFn_self]
                    split <;> exact hexh
                  · simp only [updFn_ne _ _ _ _ hh]
                    exact hex
      | approve sender ts hash =>
          show VersionDoc s' h
          replace hop : approveDocument s sender ts hash = .ok s' := hop
          unfold approveDocument at hop
          split at hop
          case isFalse => exact absurd hop (by simp)
          case isTrue hexh =>
            simp only [] at hop
            split at hop
            case isTrue => exact absurd hop (by simp)
            case isFalse hna =>
              split at hop
              case isFalse => exact absurd hop (by simp)
              case isTrue hst =>
                injection hop with hop
                subst hop
                refine ⟨?_, hvs, hlv⟩
                by_cases hh : h = hash
                · subst hh
                  simp only [updFn_self]
                  split <;> exact hexh
                · simp only [updFn_ne _ _ _ _ hh]
                  exact hex
      | reject sender ts hash r =>
          show VersionDoc s' h
          replace hop : rejectDocument s sender ts hash r = .ok s' := hop
          unfold rejectDocument at hop
          split at hop
          case isFalse => exact absurd hop (by simp)
          case isTrue hexh =>
            split at hop
            case isFalse => exact absurd hop (by simp)
            case isTrue hreq =>
              simp only [] at hop
              split at hop
              case isFalse => exact absurd hop (by simp)
              case isTrue hpend =>
                injection hop with hop
                subst hop
                refine ⟨?_, hvs, hlv⟩
                by_cases hh : h = hash
                · subst hh
                  simp only [updFn_self]
                  exact hexh
                · simp only [updFn_ne _ _ _ _ hh]
                  exact hex
      | addNotaryOp sender t =>
          show VersionDoc s' h
          replace hop : addNotary s sender t = .ok s' := hop
          unfold addNotary at hop
          split at hop
          · injection hop with hop
            subst hop
            exact ⟨hex, hvs, hlv⟩
          · exact absurd hop (by simp)
      | removeNotaryOp sender t =>
          show VersionDoc s' h
          replace hop : removeNotary s sender t = .ok s' := hop
          unfold removeNotary at hop
          split at hop
          · injection hop with hop
            subst hop
            exact ⟨hex, hvs, hlv⟩
          · exact absurd hop (by simp)

theorem versionDoc_execAll (ops : List Op) : ∀ s h, VersionDoc s h →
    VersionDoc (execAll s ops) h := by
  induction ops with
  | nil => exact fun s h hv => hv
  | cons op ops ih =>
      exact fun s h hv => ih (exec s op) h (versionDoc_exec s h op hv)

theorem createVersion_fails_no_versions (t : ContractState) (h : Hash)
    (hex : (t.documents h).exists = true) (hvs : t.documentVersions h = [])
    (c : Addr) (ts : Nat) (n : Hash) (d : String) :
    ∃ e, createDocumentVersion t c ts h n d = .error e := by
  by_cases hb : (t.documents n).exists = true
  · exact ⟨.Conflict "New version hash already exists",
      by simp [createDocumentVersion, hex, hb]⟩
  · exact ⟨.NotFound "No versions found",
      by simp [createDocumentVersion, hex, hb, hvs]⟩

/-- C10: a document created as the new hash of a successful
createVersion roots no lineage: in every later state it still exists,
its version sequence stays empty and its latest pointer stays the zero
sentinel, so getDocumentVersions is empty, getLatestVersion is 0, and
every createVersion rooted at it fails. -/
theorem claim10_version_hash_no_lineage (s : ContractState) (hs : Reachable s)
    (sender : Addr) (ts : Nat) (orig h : Hash) (desc : String)
    (s₁ : ContractState)
    (hok : createDocumentVersion s sender ts orig h desc = .ok s₁)
    (ops : List Op) :
    ((execAll s₁ ops).documents h).exists = true ∧
    getDocumentVersions (execAll s₁ ops) h = [] ∧
    getLatestVersion (execAll s₁ ops) h = 0 ∧
    ∀ c ts' n d, ∃ e,
      createDocumentVersion (execAll s₁ ops) c ts' h n d = .error e := by
  obtain ⟨hfresh, hdoc, hlat⟩ := reachable_inv s hs
  unfold createDocumentVersion at hok
  split at hok
  case isFalse => exact absurd hok (by simp)
  case isTrue hex =>
    split at hok
    case isTrue => exact absurd hok (by simp)
    case isFalse hnew =>
      split at hok
      case isTrue => exact absurd hok (by simp)
      case isFalse hlen =>
        injection hok with hok
        subst hok
        have hno : h ≠ orig := by
          intro he
          rw [he] at hnew
          exact hnew hex
        have hfr := hfresh h (by simpa using hnew)
        have hv1 : VersionDoc
            { s with
              documents := updFn s.documents h
                { s.documents h with
                  documentHash := h
                  notary := (s.documents orig).notary
                  timestamp := ts
                  metadata := (s.documents orig).metadata
                  «exists» := true
                  requiredSigners := (s.documents orig).requiredSigners
                  status := .PENDING }
              documentVersions := updFn s.documentVersions orig
                (clearFirstLatest (s.documentVersions orig) ++
                  [{ documentHash := h
                     version := (s.documentVersions orig).length + 1
                     previousVersionHash := s.latestVersionHash orig
                     creator := sender
                     timestamp := ts
                     changeDescription := desc
                     isLatest := true }])
              latestVersionHash := updFn s.latestVersionHash orig h } h := by
          refine ⟨by simp [updFn], ?_, ?_⟩
          · simp only [updFn_ne _ _ _ _ hno]
            exact hfr.2.1
          · simp only [updFn_ne _ _ _ _ hno]
            exact hfr.2.2
        have hv2 := versionDoc_execAll ops _ h hv1
        obtain ⟨e1, e2, e3⟩ := hv2
        exact ⟨e1, e2, e3,
          fun c ts' n d => createVersion_fails_no_versions _ h e1 e2 c ts' n d⟩

/-- Witness for C10: hash 2, created as a version of document 1,
still roots no lineage after a later approve transaction. -/
theorem claim10_version_hash_no_lineage_witness :
    Reachable exStateVer ∧
    createDocumentVersion exStateVer 7 11 1 2 "v2" = .ok exStateVer2 ∧
    (((execAll exStateVer2 [.approve 3 13 2]).documents 2).exists = true ∧
      getDocumentVersions (execAll exStateVer2 [.approve 3 13 2]) 2 = [] ∧
      getLatestVersion (execAll exStateVer2 [.approve 3 13 2]) 2 = 0 ∧
      ∀ c ts' n d, ∃ e,
        createDocumentVersion (execAll exStateVer2 [.approve 3 13 2]) c ts' 2 n d =
          .error e) :=
  ⟨⟨0, exOpsVer, rfl⟩, rfl,
    claim10_version_hash_no_lineage exStateVer ⟨0, exOpsVer, rfl⟩ 7 11 1 2 "v2"
      exStateVer2 rfl [.approve 3 13 2]⟩

end Notary
